import Mathlib

set_option allowUnsafeReducibility true in
attribute [semireducible] Rat.add Rat.mul Rat.sub

/-!
Verification development for the control-toolbox trajectory-optimization core.

The repository exposes two source headers: the discrete controlled-system
interface (DiscreteControlledSystem.h) and the filter-side system-model adapter
(CTSystemModel.h).  Those are embedded directly below.  The iterative LQ solver
core (LQ approximation, Riccati backward pass, line search, iteration
controller, execution backend, MPC trajectory shifting) is described by the
specification but its implementation files are not part of the visible sources;
those components are modelled from the specification text, over scalar (one
state dimension, one control dimension) rational arithmetic, and each such
definition is marked as spec-modelled in its doc comment.
-/

namespace ct
namespace core

/-- System type tag carried by the DiscreteSystem base class. -/
inductive SYSTEM_TYPE where
  | GENERAL
  | SECOND_ORDER
deriving DecidableEq

/-- A discrete controller: computes a control from a state and a time index,
mirroring DiscreteController::computeControl(state, n, controlAction). -/
structure DiscreteController (S C : Type) where
  computeControl : S → Int → C

/-- Embedding of ct::core::DiscreteControlledSystem.  The pure virtual
propagateControlledDynamics is a function field supplied by the derived class;
the shared-ptr controller handle is an Option (none models a null pointer). -/
structure DiscreteControlledSystem (S C : Type) where
  systemType : SYSTEM_TYPE
  controller_ : Option (DiscreteController S C)
  propagateControlledDynamics : S → Int → C → S

/-- Embedding of DiscreteControlledSystem::setController: stores the new
controller handle in the controller_ member. -/
def setController (sys : DiscreteControlledSystem S C)
    (controller : Option (DiscreteController S C)) : DiscreteControlledSystem S C :=
  { sys with controller_ := controller }

/-- Embedding of the by-value getter DiscreteControlledSystem::getController. -/
def getController (sys : DiscreteControlledSystem S C) :
    Option (DiscreteController S C) :=
  sys.controller_

/-- Embedding of the by-reference getter
DiscreteControlledSystem::getController(controller&): it assigns the stored
handle to the output argument, so as a function it returns the stored handle. -/
def getControllerByRef (sys : DiscreteControlledSystem S C) :
    Option (DiscreteController S C) :=
  sys.controller_

/-- Embedding of DiscreteControlledSystem::propagateDynamics: if a controller
is assigned it computes the control action, otherwise the control action is
set to zero; then the controlled dynamics are propagated one step. -/
def propagateDynamics [Zero C] (sys : DiscreteControlledSystem S C)
    (state : S) (n : Int) : S :=
  let controlAction : C :=
    match sys.controller_ with
    | some ctrl => ctrl.computeControl state n
    | none => 0
  sys.propagateControlledDynamics state n controlAction

end core

namespace optcon

/-- A continuous-time controlled system as consumed by CTSystemModel: the
underlying dynamics and the assigned system controller (none models a null
controller handle). -/
structure ControlledSystem where
  controller : Option (ℚ → ℚ → ℚ)
  dynamics : ℚ → ℚ → ℚ → ℚ

/-- Control produced by the assigned system controller at a state and time;
a null controller yields the zero control. -/
def ControlledSystem.controlOf (sys : ControlledSystem) (x t : ℚ) : ℚ :=
  match sys.controller with
  | some g => g x t
  | none => 0

/-- Embedding of ct::optcon::CTSystemModel's data members that matter for
propagation: the underlying CT system, the integration step and the number of
integration substeps. -/
structure CTSystemModel where
  system_ : ControlledSystem
  dt_ : ℚ
  numSubsteps_ : Nat

/-- One explicit-Euler integration pass of the closed-loop system: the control
applied is generated by the assigned system controller. -/
def eulerClosedLoop (sys : ControlledSystem) (h : ℚ) : Nat → ℚ → ℚ → ℚ
  | 0, x, _ => x
  | k + 1, x, t =>
      eulerClosedLoop sys h k (x + h * sys.dynamics x (sys.controlOf x t) t) (t + h)

/-- Modelled from the spec: the implementation of
CTSystemModel::computeDynamics is not under src/ (only its declaration is);
per the header documentation, propagation integrates the underlying system
with the control generated by the assigned system controller, and the
controlPlaceholder argument is not used. -/
def CTSystemModel.computeDynamics (m : CTSystemModel) (state : ℚ)
    (controlPlaceholder : ℚ) (t : ℚ) : ℚ :=
  eulerClosedLoop m.system_ (m.dt_ / (m.numSubsteps_ + 1))
    (m.numSubsteps_ + 1) state t

end optcon
end ct

namespace nloc

/-- Error raised by the System Model capability outside its valid domain. -/
inductive ModelEvaluationError where
  | outsideDomain
deriving DecidableEq

/-- Configuration errors reported immediately at the solve entry point. -/
inductive ConfigError where
  | malformedSettings
deriving DecidableEq

/-- Modelled from the spec: the System Model capability (section 6).  The
concrete dynamics implementation is an external collaborator not under src/;
it propagates a state one step, produces linearizations, and has a validity
domain outside which evaluation fails. -/
structure SystemModel where
  validDomain : ℚ → ℚ → Nat → Bool
  step : ℚ → ℚ → Nat → ℚ
  linA : ℚ → ℚ → Nat → ℚ
  linB : ℚ → ℚ → Nat → ℚ

/-- Modelled from the spec: propagate(state, control, timeIndex) fails with
ModelEvaluationError outside the model's valid domain, otherwise returns the
next state. -/
def propagate (m : SystemModel) (x u : ℚ) (n : Nat) :
    Except ModelEvaluationError ℚ :=
  if m.validDomain x u n then Except.ok (m.step x u n)
  else Except.error ModelEvaluationError.outsideDomain

/-- Modelled from the spec: linearize(state, control, timeIndex) fails with
ModelEvaluationError outside the model's valid domain, otherwise returns the
state-transition and control-influence coefficients. -/
def linearize (m : SystemModel) (x u : ℚ) (n : Nat) :
    Except ModelEvaluationError (ℚ × ℚ) :=
  if m.validDomain x u n then Except.ok (m.linA x u n, m.linB x u n)
  else Except.error ModelEvaluationError.outsideDomain

/-- True exactly on successful results. -/
def isOkE : Except E A → Bool
  | Except.ok _ => true
  | Except.error _ => false

/-- Modelled from the spec: the Cost Model capability (section 6): stage and
terminal cost and their first and second derivatives, in one state and one
control dimension. -/
structure CostModel where
  stage : ℚ → ℚ → Nat → ℚ
  lx : ℚ → ℚ → Nat → ℚ
  lu : ℚ → ℚ → Nat → ℚ
  lxx : ℚ → ℚ → Nat → ℚ
  luu : ℚ → ℚ → Nat → ℚ
  lux : ℚ → ℚ → Nat → ℚ
  terminal : ℚ → ℚ
  phix : ℚ → ℚ
  phixx : ℚ → ℚ

/-- Modelled from the spec: a Trajectory is an ordered sequence of states and
an ordered sequence of controls, one control shorter than the states. -/
structure Trajectory where
  states : List ℚ
  controls : List ℚ
deriving DecidableEq

/-- The Trajectory data-model invariant from the spec. -/
def Trajectory.wellFormed (t : Trajectory) : Prop :=
  t.states.length = t.controls.length + 1

instance (t : Trajectory) : Decidable t.wellFormed := by
  unfold Trajectory.wellFormed
  infer_instance

/-- Modelled from the spec: the Solve Settings record. -/
structure SolveSettings where
  maxIterations : Nat
  costToleranceAbs : ℚ
  costToleranceRel : ℚ
  lineSearchSteps : List ℚ
  regularizationInit : ℚ
  regularizationMaxGrowth : ℚ
  numWorkers : Nat
deriving DecidableEq

/-- Strictly decreasing check for the line-search candidate list. -/
def strictlyDecreasing : List ℚ → Bool
  | [] => true
  | [_] => true
  | a :: b :: rest => decide (b < a) && strictlyDecreasing (b :: rest)

/-- Modelled from the spec: the settings invariant — lineSearchSteps is a
strictly decreasing sequence of values in the interval (0, 1] whose first
candidate is 1. -/
def settingsOk (s : SolveSettings) : Bool :=
  (match s.lineSearchSteps with
   | a :: _ => decide (a = 1)
   | [] => false)
  && strictlyDecreasing s.lineSearchSteps
  && s.lineSearchSteps.all (fun a => decide (0 < a) && decide (a ≤ 1))

/-- Modelled from the spec: the sequential Execution Backend strategy —
apply F independently to each element, results in original order, on the
calling thread. -/
def seqMap (f : A → B) (l : List A) : List B :=
  l.map f

/-- Splits a list into contiguous chunks of size k (the index partition the
worker pool fixes in advance); fuel-based recursion on the list length. -/
def chunkBy (k : Nat) : Nat → List A → List (List A)
  | 0, _ => []
  | _, [] => []
  | fuel + 1, l => l.take k :: chunkBy k fuel (l.drop k)

/-- Modelled from the spec: the worker-pool Execution Backend strategy —
the input collection is partitioned in advance into contiguous index ranges,
one per worker; each worker maps F over its own chunk (no shared mutable
state); a join barrier collects the per-worker outputs back in the original
element order. -/
def workerPoolMap (numWorkers : Nat) (f : A → B) (l : List A) : List B :=
  let chunkSize := (l.length + numWorkers - 1) / numWorkers
  let tasks := chunkBy chunkSize l.length l
  let results := tasks.map (fun chunk => chunk.map f)
  results.flatten

/-- Modelled from the spec: one Linearized Step — linearized dynamics
coefficients, affine residual, and the stage-cost gradient and Hessian
blocks at one timestep of the nominal trajectory. -/
structure LinStep where
  A : ℚ
  B : ℚ
  r : ℚ
  lx : ℚ
  lu : ℚ
  lxx : ℚ
  luu : ℚ
  lux : ℚ
deriving DecidableEq

/-- The per-timestep inputs of the LQ approximation: time index paired with
the nominal state and control at that index. -/
def timestepInputs (traj : Trajectory) : List (Nat × ℚ × ℚ) :=
  (traj.states.zip traj.controls).enum

/-- Modelled from the spec: the LQ Approximator's per-timestep task — query
the System Model linearization (which fails outside the valid domain) and the
Cost Model derivatives at one nominal state-control-time triple. -/
def lqStepAt (m : SystemModel) (c : CostModel) (p : Nat × ℚ × ℚ) :
    Except ModelEvaluationError LinStep :=
  match linearize m p.2.1 p.2.2 p.1 with
  | Except.error e => Except.error e
  | Except.ok ab =>
      Except.ok ⟨ab.1, ab.2, m.step p.2.1 p.2.2 p.1,
        c.lx p.2.1 p.2.2 p.1, c.lu p.2.1 p.2.2 p.1,
        c.lxx p.2.1 p.2.2 p.1, c.luu p.2.1 p.2.2 p.1, c.lux p.2.1 p.2.2 p.1⟩

/-- Collects per-task results after the barrier: the first failure aborts the
outer iteration, otherwise all outputs are kept in order. -/
def collectExcept : List (Except E A) → Except E (List A)
  | [] => Except.ok []
  | Except.error e :: _ => Except.error e
  | Except.ok a :: rest =>
      match collectExcept rest with
      | Except.error e => Except.error e
      | Except.ok l => Except.ok (a :: l)

/-- Modelled from the spec: the LQ Approximator — one Linearized Step per
timestep of the nominal trajectory; a ModelEvaluationError at any timestep
aborts the iteration. -/
def lqApproximate (m : SystemModel) (c : CostModel) (traj : Trajectory) :
    Except ModelEvaluationError (List LinStep) :=
  collectExcept (seqMap (lqStepAt m c) (timestepInputs traj))

/-- Retry budget for geometric regularization growth (number of doublings
attempted before the cap test gives up); the spec leaves the growth schedule
as configuration. -/
def regFuel : Nat := 64

/-- Modelled from the spec: Levenberg-Marquardt-style damping search — grow
the damping geometrically until the damped control-control curvature is
positive, giving up once the damping exceeds the configured cap. -/
def findReg (quu cap : ℚ) : ℚ → Nat → Option ℚ
  | _, 0 => none
  | reg, fuel + 1 =>
      if cap < reg then none
      else if 0 < quu + reg then some reg
      else findReg quu cap (2 * reg) fuel

/-- Damping selection for one Riccati step: no damping when the curvature is
already positive definite, otherwise a geometric damping search that reports
a warning; none marks the iteration diverged (cap exceeded). -/
def dampQuu (quu reg0 cap : ℚ) : Option (ℚ × Bool) :=
  if 0 < quu then some (0, false)
  else
    match findReg quu cap reg0 regFuel with
    | some r => some (r, true)
    | none => none

/-- Accumulator of the backward Riccati recursion: value-function gradient
and curvature, the feedback gains collected so far in forward time order,
the predicted cost decrease, and the regularization warning counter. -/
structure RicAcc where
  s1 : ℚ
  s2 : ℚ
  gains : List (ℚ × ℚ)
  pred : ℚ
  warn : Nat
deriving DecidableEq

/-- Modelled from the spec: one backward Riccati step — form the local
action-value quadratic from the stage quadratic and the propagated next-step
value function, regularize the control-control block if it is not positive,
compute the feedback gain and feedforward term, and update the value
function; the predicted cost decrease accumulates the Newton decrement
contribution of this step. -/
def riccatiStep (reg0 cap : ℚ) (st : LinStep) (acc : RicAcc) : Option RicAcc :=
  let qx := st.lx + st.A * acc.s1
  let qu := st.lu + st.B * acc.s1
  let qxx := st.lxx + st.A * acc.s2 * st.A
  let quu := st.luu + st.B * acc.s2 * st.B
  let qux := st.lux + st.B * acc.s2 * st.A
  match dampQuu quu reg0 cap with
  | none => none
  | some rw =>
      let quuR := quu + rw.1
      let K := -(qux / quuR)
      let kff := -(qu / quuR)
      some ⟨qx + K * qu + qux * kff + K * quuR * kff,
            qxx + 2 * (K * qux) + K * quuR * K,
            (K, kff) :: acc.gains,
            acc.pred + qu * qu / quuR,
            acc.warn + (if rw.2 then 1 else 0)⟩

/-- The backward recursion proper, walking the Linearized Steps most recent
timestep first; none marks divergence by regularization-cap overflow. -/
def backwardRec (reg0 cap : ℚ) (acc : RicAcc) : List LinStep → Option RicAcc
  | [] => some acc
  | st :: rest =>
      match riccatiStep reg0 cap st acc with
      | none => none
      | some a => backwardRec reg0 cap a rest

/-- Modelled from the spec: the Backward Solver — initialize the terminal
value function from the terminal cost derivatives at the last nominal state
and run the Riccati recursion backward over the Linearized Steps. -/
def backwardSolve (reg0 cap : ℚ) (c : CostModel) (xN : ℚ)
    (steps : List LinStep) : Option RicAcc :=
  backwardRec reg0 cap ⟨c.phix xN, c.phixx xN, [], 0, 0⟩ steps.reverse

/-- Modelled from the spec: the forward rollout recursion — at each timestep
apply the control u = u_nominal + stepSize * u_ff + K * (x - x_nominal),
propagate through the System Model (which may fail outside its domain), and
accumulate the stage costs plus the terminal cost. -/
def rolloutAux (m : SystemModel) (c : CostModel) (a : ℚ)
    (xnom unom : List ℚ) :
    ℚ → Nat → List (ℚ × ℚ) → Except ModelEvaluationError (List ℚ × List ℚ × ℚ)
  | x, _, [] => Except.ok ([x], [], c.terminal x)
  | x, t, g :: rest =>
      let u := unom.getD t 0 + a * g.2 + g.1 * (x - xnom.getD t 0)
      match propagate m x u t with
      | Except.error e => Except.error e
      | Except.ok xNext =>
          match rolloutAux m c a xnom unom xNext (t + 1) rest with
          | Except.error e => Except.error e
          | Except.ok acc =>
              Except.ok (x :: acc.1, u :: acc.2.1, c.stage x u t + acc.2.2)

/-- Modelled from the spec: one candidate rollout of the Forward Simulator —
roll the dynamics forward from the true initial state under the feedback
policy scaled by the candidate step size, producing a new Trajectory and its
total cost. -/
def rolloutCandidate (m : SystemModel) (c : CostModel) (nominal : Trajectory)
    (gains : List (ℚ × ℚ)) (x0 a : ℚ) :
    Except ModelEvaluationError (Trajectory × ℚ) :=
  match rolloutAux m c a nominal.states nominal.controls x0 0 gains with
  | Except.error e => Except.error e
  | Except.ok acc => Except.ok (⟨acc.1, acc.2.1⟩, acc.2.2)

/-- Total rollout cost of one candidate step size, when the rollout stays in
the model's valid domain. -/
def candidateCost (m : SystemModel) (c : CostModel) (nominal : Trajectory)
    (gains : List (ℚ × ℚ)) (x0 a : ℚ) : Option ℚ :=
  match rolloutCandidate m c nominal gains x0 a with
  | Except.ok res => some res.2
  | Except.error _ => none

/-- The Armijo sufficient-decrease fraction; the spec leaves the exact
threshold as a tunable constant. -/
def armijoFraction : ℚ := mkRat 1 10

/-- Modelled from the spec: the sufficient-decrease test — a candidate is
accepted when its rollout succeeds and its total cost does not exceed the
previous iteration's cost minus the Armijo fraction of the predicted
decrease at that step size. -/
def acceptTest (m : SystemModel) (c : CostModel) (nominal : Trajectory)
    (gains : List (ℚ × ℚ)) (x0 prevCost pred a : ℚ) : Bool :=
  match candidateCost m c nominal gains x0 a with
  | some cst => decide (cst ≤ prevCost - armijoFraction * (a * pred))
  | none => false

/-- Modelled from the spec: the line search — scan the candidate step sizes
largest first and return the first one passing the sufficient-decrease test,
together with its rollout trajectory and cost; none marks a failed line
search. -/
def lineSearch (m : SystemModel) (c : CostModel) (nominal : Trajectory)
    (gains : List (ℚ × ℚ)) (x0 : ℚ) (cands : List ℚ) (prevCost pred : ℚ) :
    Option (ℚ × Trajectory × ℚ) :=
  match cands.find? (acceptTest m c nominal gains x0 prevCost pred) with
  | none => none
  | some a =>
      match rolloutCandidate m c nominal gains x0 a with
      | Except.ok res => some (a, res.1, res.2)
      | Except.error _ => none

/-- Terminal status of one solve: converged, diverged, or iteration budget
exhausted (the latter is not an error). -/
inductive TermStatus where
  | converged
  | diverged
  | budget
deriving DecidableEq

/-- Modelled from the spec: the Solve Result — final trajectory, final
feedback policy, iteration count, terminal cost, and the termination
status. -/
structure SolveResult where
  trajectory : Trajectory
  policy : List (ℚ × ℚ)
  iterations : Nat
  finalCost : ℚ
  status : TermStatus
deriving DecidableEq

/-- The converged/diverged status flag carried by the result: true exactly in
the converged case. -/
def SolveResult.convergedFlag (r : SolveResult) : Bool :=
  decide (r.status = TermStatus.converged)

/-- Total cost of a trajectory under the Cost Model: stage costs over every
timestep plus the terminal cost at the last state. -/
def trajectoryCost (c : CostModel) (traj : Trajectory) : ℚ :=
  (timestepInputs traj).foldr (fun p acc => c.stage p.2.1 p.2.2 p.1 + acc)
    (c.terminal (traj.states.getLastD 0))

/-- Forward propagation of the System Model under zero controls, used to
build the all-zero-controls initial guess. -/
def zeroStates (m : SystemModel) : ℚ → Nat → Nat → List ℚ
  | x, _, 0 => [x]
  | x, t, k + 1 => x :: zeroStates m (m.step x 0 t) (t + 1) k

/-- Modelled from the spec: the all-zero-controls initial guess over a given
horizon. -/
def zeroControlGuess (m : SystemModel) (x0 : ℚ) (horizon : Nat) : Trajectory :=
  ⟨zeroStates m x0 0 horizon, List.replicate horizon 0⟩

/-- Modelled from the spec: initial guess construction — the outer loop uses
the caller-supplied trajectory when one is supplied and structurally sound
for the horizon, and otherwise rolls out the all-zero-controls guess. -/
def initialGuess (m : SystemModel) (x0 : ℚ) (horizon : Nat)
    (guess : Option Trajectory) : Trajectory :=
  match guess with
  | some g =>
      if g.states.length = g.controls.length + 1 ∧ g.controls.length = horizon
      then g else zeroControlGuess m x0 horizon
  | none => zeroControlGuess m x0 horizon

/-- Number of consecutive line-search failures tolerated before the solve is
declared diverged; the spec leaves the retry budget as configuration. -/
def lineSearchRetryBudget : Nat := 5

/-- Mutable state of the Iteration Controller across outer iterations: the
nominal trajectory and its accepted cost, the current feedback policy, the
current regularization, the consecutive line-search failure count, the
iteration counter, and the accepted-cost history (most recent first). -/
structure IterState where
  traj : Trajectory
  policy : List (ℚ × ℚ)
  cost : ℚ
  reg : ℚ
  lsFails : Nat
  iters : Nat
  history : List ℚ
deriving DecidableEq

/-- Packs the current controller state into a result with a given status. -/
def finishWith (st : IterState) (status : TermStatus) : SolveResult × List ℚ :=
  (⟨st.traj, st.policy, st.iters, st.cost, status⟩, st.history)

/-- Modelled from the spec: the Iteration Controller outer loop — linearize,
backward solve, forward line search, convergence check — with fuel counting
the remaining iteration budget.  A model-evaluation failure or a
regularization-cap overflow marks the solve diverged; a failed line search
escalates the regularization and retries up to the retry budget; an accepted
candidate is checked against the absolute and relative cost tolerances;
exhausted fuel reports the budget status with the best trajectory found. -/
def solveLoop (m : SystemModel) (c : CostModel) (s : SolveSettings) (x0 : ℚ) :
    Nat → IterState → SolveResult × List ℚ
  | 0, st => finishWith st TermStatus.budget
  | fuel + 1, st =>
      match lqApproximate m c st.traj with
      | Except.error _ => finishWith st TermStatus.diverged
      | Except.ok steps =>
          match backwardSolve st.reg s.regularizationMaxGrowth c
              (st.traj.states.getLastD 0) steps with
          | none => finishWith st TermStatus.diverged
          | some bw =>
              match lineSearch m c st.traj bw.gains x0 s.lineSearchSteps
                  st.cost bw.pred with
              | none =>
                  if lineSearchRetryBudget ≤ st.lsFails + 1 then
                    finishWith st TermStatus.diverged
                  else
                    solveLoop m c s x0 fuel
                      { st with reg := 2 * st.reg, lsFails := st.lsFails + 1,
                                iters := st.iters + 1 }
              | some acc =>
                  if st.cost - acc.2.2 ≤ s.costToleranceAbs ∨
                     st.cost - acc.2.2 ≤ s.costToleranceRel * |st.cost| then
                    finishWith
                      ⟨acc.2.1, bw.gains, acc.2.2, s.regularizationInit, 0,
                        st.iters + 1, acc.2.2 :: st.history⟩
                      TermStatus.converged
                  else
                    solveLoop m c s x0 fuel
                      ⟨acc.2.1, bw.gains, acc.2.2, s.regularizationInit, 0,
                        st.iters + 1, acc.2.2 :: st.history⟩

/-- Modelled from the spec: the solve entry point with its accepted-cost
trace — malformed settings and a zero-length horizon are rejected at call
entry; otherwise the iteration loop runs from the initial guess. -/
def solveWithTrace (m : SystemModel) (c : CostModel) (x0 : ℚ)
    (guess : Option Trajectory) (horizon : Nat) (s : SolveSettings) :
    Except ConfigError (SolveResult × List ℚ) :=
  if settingsOk s && decide (0 < horizon) then
    let t0 := initialGuess m x0 horizon guess
    let cost0 := trajectoryCost c t0
    Except.ok (solveLoop m c s x0 s.maxIterations
      ⟨t0, [], cost0, s.regularizationInit, 0, 0, [cost0]⟩)
  else Except.error ConfigError.malformedSettings

/-- Modelled from the spec: solve(initialState, initialTrajectoryGuess,
settings) returns a SolveResult; the horizon parameter fixes the length of
the constructed guess when none is supplied. -/
def solve (m : SystemModel) (c : CostModel) (x0 : ℚ)
    (guess : Option Trajectory) (horizon : Nat) (s : SolveSettings) :
    Except ConfigError SolveResult :=
  match solveWithTrace m c x0 guess horizon s with
  | Except.ok res => Except.ok res.1
  | Except.error e => Except.error e

/-- The accepted-cost trace of one solve, most recent accepted cost first,
seeded with the initial guess cost; empty when the call is rejected at
entry. -/
def solveTrace (m : SystemModel) (c : CostModel) (x0 : ℚ)
    (guess : Option Trajectory) (horizon : Nat) (s : SolveSettings) : List ℚ :=
  match solveWithTrace m c x0 guess horizon s with
  | Except.ok res => res.2
  | Except.error _ => []

/-- Pads a list with copies of a default element up to a target length. -/
def extendTo (len : Nat) (d : A) (l : List A) : List A :=
  l ++ List.replicate (len - l.length) d

/-- Modelled from the spec: the MPC layer's receding-horizon shift — discard
the consumed first k elements of the stored trajectory and extend the tail
by repeating the last segment, keeping the horizon length. -/
def shiftTrajectory (k : Nat) (t : Trajectory) : Trajectory :=
  ⟨extendTo t.states.length (t.states.getLastD 0) (t.states.drop k),
   extendTo t.controls.length (t.controls.getLastD 0) (t.controls.drop k)⟩

/-- Modelled from the spec: the states of the Iteration Controller's state
machine. -/
inductive CtrlState where
  | initializingPhase
  | linearizingPhase
  | backwardSolvingPhase
  | forwardSearchingPhase
  | convergenceCheckPhase
  | convergedState
  | divergedState
deriving DecidableEq

/-- The outcome signals the controller observes at the convergence check. -/
structure StepObs where
  isConverged : Bool
  isDiverged : Bool
deriving DecidableEq

/-- Modelled from the spec: the Iteration Controller transition function —
Initializing to Linearizing to BackwardSolving to ForwardSearching to
ConvergenceCheck, which moves to Converged or Diverged on the observed
outcome signals and otherwise loops back to Linearizing; Converged and
Diverged admit no further transitions. -/
def ctrlStep (obs : StepObs) : CtrlState → CtrlState
  | CtrlState.initializingPhase => CtrlState.linearizingPhase
  | CtrlState.linearizingPhase => CtrlState.backwardSolvingPhase
  | CtrlState.backwardSolvingPhase => CtrlState.forwardSearchingPhase
  | CtrlState.forwardSearchingPhase => CtrlState.convergenceCheckPhase
  | CtrlState.convergenceCheckPhase =>
      if obs.isConverged then CtrlState.convergedState
      else if obs.isDiverged then CtrlState.divergedState
      else CtrlState.linearizingPhase
  | CtrlState.convergedState => CtrlState.convergedState
  | CtrlState.divergedState => CtrlState.divergedState

/-- An execution of the controller state machine driven by a stream of
observed outcome signals, starting in the Initializing state. -/
def ctrlRun (obs : Nat → StepObs) : Nat → CtrlState
  | 0 => CtrlState.initializingPhase
  | n + 1 => ctrlStep (obs n) (ctrlRun obs n)

/-- Structural soundness of a candidate rollout, as a checkable observation:
every successfully produced trajectory satisfies the Trajectory invariant
(failed rollouts produce no trajectory). -/
def rolloutWF (m : SystemModel) (c : CostModel) (nominal : Trajectory)
    (gains : List (ℚ × ℚ)) (x0 a : ℚ) : Bool :=
  match rolloutCandidate m c nominal gains x0 a with
  | Except.ok res => decide res.1.wellFormed
  | Except.error _ => true

/-- A concrete scalar linear System Model used by the witness evaluations:
x(t+1) = x(t) + u(t), everywhere valid. -/
def demoModel : SystemModel :=
  ⟨fun _ _ _ => true, fun x u _ => x + u, fun _ _ _ => 1, fun _ _ _ => 1⟩

/-- A concrete quadratic Cost Model used by the witness evaluations. -/
def demoCost : CostModel :=
  ⟨fun x u _ => x * x + u * u, fun x _ _ => 2 * x, fun _ u _ => 2 * u,
   fun _ _ _ => 2, fun _ _ _ => 2, fun _ _ _ => 0,
   fun x => x * x, fun x => 2 * x, fun _ => 2⟩

/-- Concrete well-formed settings used by the witness evaluations. -/
def demoSettings : SolveSettings :=
  ⟨3, mkRat 1 1000, 0, [1, mkRat 1 2], mkRat 1 10, 1000, 1⟩

/-- A concrete well-formed two-step trajectory used by the witness
evaluations. -/
def demoTraj : Trajectory := ⟨[1, 0, 0], [0, 0]⟩

/-- Concrete feedback gains (one pair per timestep of demoTraj) used by the
witness evaluations. -/
def demoGains : List (ℚ × ℚ) := [(0, -1), (0, 0)]

/-- A constant observation stream reporting convergence, used by the witness
evaluation of the controller state machine. -/
def demoObs : Nat → StepObs := fun _ => ⟨true, false⟩

end nloc

namespace ct
namespace core

/-- A concrete discrete controlled system with no assigned controller, used
by the witness evaluations. -/
def demoSysFree : DiscreteControlledSystem ℚ ℚ :=
  ⟨SYSTEM_TYPE.GENERAL, none, fun s _ u => s + u⟩

/-- A concrete discrete controller used by the witness evaluations. -/
def demoController : DiscreteController ℚ ℚ := ⟨fun s _ => s + s⟩

/-- The demo system with the demo controller assigned, used by the witness
evaluations. -/
def demoSysCtrl : DiscreteControlledSystem ℚ ℚ :=
  ⟨SYSTEM_TYPE.GENERAL, some demoController, fun s _ u => s + u⟩

end core
end ct

open nloc ct.core ct.optcon

/-- C10: setController and getController round-trip on
DiscreteControlledSystem — after setController(c), both the by-value and the
by-reference getter return exactly the stored handle c, the two getters agree
on every system, and setController modifies no other field (the system type
and the controlled-dynamics implementation are unchanged). -/
theorem setController_getController_roundtrip
    (sys : DiscreteControlledSystem S C) (c : Option (DiscreteController S C)) :
    getController (setController sys c) = c ∧
    getControllerByRef (setController sys c) = c ∧
    (∀ s : DiscreteControlledSystem S C, getController s = getControllerByRef s) ∧
    (setController sys c).systemType = sys.systemType ∧
    (setController sys c).propagateControlledDynamics =
      sys.propagateControlledDynamics :=
  ⟨rfl, rfl, fun _ => rfl, rfl, rfl⟩

/-- C9: DiscreteControlledSystem::propagateDynamics propagates under the zero
control vector when no controller is assigned, and under the control computed
by the assigned controller at the given state and time index otherwise. -/
theorem propagateDynamics_controller_cases [Zero C]
    (sys : DiscreteControlledSystem S C) (state : S) (n : Int) :
    (sys.controller_ = none →
      propagateDynamics sys state n =
        sys.propagateControlledDynamics state n 0) ∧
    (∀ ctrl, sys.controller_ = some ctrl →
      propagateDynamics sys state n =
        sys.propagateControlledDynamics state n (ctrl.computeControl state n)) := by
  constructor
  · intro h
    unfold propagateDynamics
    rw [h]
  · intro ctrl h
    unfold propagateDynamics
    rw [h]

/-- Witness for C9: evaluating propagateDynamics on a concrete system with no
controller and on one with an assigned controller. -/
theorem propagateDynamics_controller_cases_witness :
    propagateDynamics demoSysFree 3 0 =
      demoSysFree.propagateControlledDynamics 3 0 0 ∧
    propagateDynamics demoSysCtrl 3 0 =
      demoSysCtrl.propagateControlledDynamics 3 0
        (demoController.computeControl 3 0) :=
  ⟨(propagateDynamics_controller_cases demoSysFree 3 0).1 rfl,
   (propagateDynamics_controller_cases demoSysCtrl 3 0).2 demoController rfl⟩

/-- C8: CTSystemModel's propagation is noninterferent with respect to the
control placeholder argument — for every state, time, and any two placeholder
values, computeDynamics produces the same next state, because the applied
control is generated by the assigned system controller. -/
theorem computeDynamics_placeholder_noninterference
    (m : CTSystemModel) (state u1 u2 t : ℚ) :
    m.computeDynamics state u1 t = m.computeDynamics state u2 t := rfl

/-- C3: the System Model capability's propagate and linearize succeed exactly
on inputs inside the valid domain and fail with a ModelEvaluationError
exactly on inputs outside it. -/
theorem propagate_linearize_domain (m : SystemModel) (x u : ℚ) (n : Nat) :
    (isOkE (propagate m x u n) = true ↔ m.validDomain x u n = true) ∧
    (propagate m x u n = Except.error ModelEvaluationError.outsideDomain ↔
      m.validDomain x u n = false) ∧
    (isOkE (linearize m x u n) = true ↔ m.validDomain x u n = true) ∧
    (linearize m x u n = Except.error ModelEvaluationError.outsideDomain ↔
      m.validDomain x u n = false) := by
  unfold propagate linearize isOkE
  by_cases h : m.validDomain x u n = true <;> simp [h]

/-- C7: in the Iteration Controller's state machine, the terminal states are
absorbing — along every execution, once the run is in Converged or Diverged
it stays there for every number of further steps. -/
theorem terminal_states_absorbing (obs : Nat → StepObs) (n k : Nat) :
    (ctrlRun obs n = CtrlState.convergedState →
      ctrlRun obs (n + k) = CtrlState.convergedState) ∧
    (ctrlRun obs n = CtrlState.divergedState →
      ctrlRun obs (n + k) = CtrlState.divergedState) := by
  induction k with
  | zero => exact ⟨fun h => h, fun h => h⟩
  | succ k ih =>
      refine ⟨fun h => ?_, fun h => ?_⟩
      · show ctrlStep (obs (n + k)) (ctrlRun obs (n + k)) = _
        rw [ih.1 h]
        rfl
      · show ctrlStep (obs (n + k)) (ctrlRun obs (n + k)) = _
        rw [ih.2 h]
        rfl

/-- Witness for C7: the run driven by a converging observation stream reaches
Converged after five steps and is still Converged three steps later. -/
theorem terminal_states_absorbing_witness :
    ctrlRun demoObs (5 + 3) = CtrlState.convergedState :=
  (terminal_states_absorbing demoObs 5 3).1 (by decide)

/-- Flattening the advance index partition recovers the original list. -/
theorem chunkBy_flatten (k : Nat) (hk : 0 < k) :
    ∀ fuel (l : List A), l.length ≤ fuel → (chunkBy k fuel l).flatten = l := by
  intro fuel
  induction fuel with
  | zero =>
      intro l hl
      rw [List.length_eq_zero.mp (Nat.le_zero.mp hl)]
      rfl
  | succ fuel ih =>
      intro l hl
      cases l with
      | nil => rfl
      | cons a t =>
          show ((a :: t).take k :: chunkBy k fuel ((a :: t).drop k)).flatten =
            a :: t
          rw [List.flatten_cons, ih]
          · exact List.take_append_drop k (a :: t)
          · rw [List.length_drop]
            have hl2 : (a :: t).length ≤ fuel + 1 := hl
            simp only [List.length_cons] at hl2
            omega

/-- The worker-pool strategy agrees with the sequential strategy on every
input collection and every function, for any positive worker count. -/
theorem workerPoolMap_eq_seqMap (nw : Nat) (h : 0 < nw) (f : A → B)
    (l : List A) : workerPoolMap nw f l = seqMap f l := by
  unfold workerPoolMap seqMap
  cases l with
  | nil => rfl
  | cons a t =>
      rw [← List.map_flatten, chunkBy_flatten]
      · have hlen : 0 < (a :: t).length := by simp
        have : nw ≤ (a :: t).length + nw - 1 := by omega
        rw [Nat.lt_iff_add_one_le, Nat.le_div_iff_mul_le h]
        omega
      · exact Nat.le_refl _

/-- C2: the sequential and worker-pool Execution Backend strategies are
observationally equivalent — on any trajectory the per-timestep linearization
map, and on any candidate list the per-candidate rollout map, produce
identical outputs in the original element order under either strategy. -/
theorem backend_strategies_equivalent (m : SystemModel) (c : CostModel)
    (traj nominal : Trajectory) (gains : List (ℚ × ℚ)) (x0 : ℚ)
    (cands : List ℚ) (nw : Nat) (h : 0 < nw) :
    workerPoolMap nw (lqStepAt m c) (timestepInputs traj) =
      seqMap (lqStepAt m c) (timestepInputs traj) ∧
    workerPoolMap nw (rolloutCandidate m c nominal gains x0) cands =
      seqMap (rolloutCandidate m c nominal gains x0) cands :=
  ⟨workerPoolMap_eq_seqMap nw h _ _, workerPoolMap_eq_seqMap nw h _ _⟩

/-- Witness for C2: both backend strategies evaluated on the concrete demo
problem with two workers. -/
theorem backend_strategies_equivalent_witness :
    workerPoolMap 2 (lqStepAt demoModel demoCost) (timestepInputs demoTraj) =
      seqMap (lqStepAt demoModel demoCost) (timestepInputs demoTraj) ∧
    workerPoolMap 2 (rolloutCandidate demoModel demoCost demoTraj demoGains 1)
        demoSettings.lineSearchSteps =
      seqMap (rolloutCandidate demoModel demoCost demoTraj demoGains 1)
        demoSettings.lineSearchSteps :=
  backend_strategies_equivalent demoModel demoCost demoTraj demoTraj demoGains
    1 demoSettings.lineSearchSteps 2 (by decide)

/-- A successful find? returns the first satisfying element: the list splits
around the returned element and everything before it fails the test. -/
theorem find?_first_satisfying {p : A → Bool} :
    ∀ {l : List A} {a : A}, l.find? p = some a →
      p a = true ∧ ∃ pre post, l = pre ++ a :: post ∧ ∀ b ∈ pre, p b = false := by
  intro l
  induction l with
  | nil => intro a h; cases h
  | cons hd tl ih =>
      intro a h
      by_cases hp : p hd = true
      · rw [List.find?_cons_of_pos _ hp] at h
        cases h
        exact ⟨hp, [], tl, rfl, by intro b hb; cases hb⟩
      · have hp2 : p hd = false := by
          cases hb : p hd
          · rfl
          · exact absurd hb hp
        rw [List.find?_cons_of_neg _ hp] at h
        obtain ⟨hpa, pre, post, heq, hpre⟩ := ih h
        refine ⟨hpa, hd :: pre, post, by rw [heq]; rfl, ?_⟩
        intro b hb
        cases hb with
        | head => exact hp2
        | tail _ hmem => exact hpre b hmem

/-- Elimination form of a successful line search: the returned step size is
the one found by the candidate scan and the returned cost is its rollout
cost. -/
theorem lineSearch_some_elim (m : SystemModel) (c : CostModel)
    (nominal : Trajectory) (gains : List (ℚ × ℚ)) (x0 : ℚ) (cands : List ℚ)
    (prevCost pred a cst : ℚ) (tr : Trajectory)
    (h : lineSearch m c nominal gains x0 cands prevCost pred = some (a, tr, cst)) :
    cands.find? (acceptTest m c nominal gains x0 prevCost pred) = some a ∧
    candidateCost m c nominal gains x0 a = some cst := by
  unfold lineSearch at h
  split at h
  · cases h
  · next a0 hfind =>
      split at h
      · next res hroll =>
          injection h with h2
          rw [Prod.mk.injEq, Prod.mk.injEq] at h2
          obtain ⟨ha, _, hcst⟩ := h2
          subst ha
          refine ⟨hfind, ?_⟩
          unfold candidateCost
          rw [hroll]
          show some res.2 = some cst
          rw [hcst]
      · cases h

/-- A line search fails exactly when every candidate fails the
sufficient-decrease test. -/
theorem lineSearch_none_iff (m : SystemModel) (c : CostModel)
    (nominal : Trajectory) (gains : List (ℚ × ℚ)) (x0 : ℚ) (cands : List ℚ)
    (prevCost pred : ℚ) :
    lineSearch m c nominal gains x0 cands prevCost pred = none ↔
      ∀ a ∈ cands, acceptTest m c nominal gains x0 prevCost pred a = false := by
  constructor
  · intro h
    cases hfind : cands.find? (acceptTest m c nominal gains x0 prevCost pred) with
    | none =>
        intro a ha
        have hna := List.find?_eq_none.mp hfind a ha
        cases hb : acceptTest m c nominal gains x0 prevCost pred a
        · rfl
        · exact absurd hb hna
    | some a0 =>
        exfalso
        have hp0 : acceptTest m c nominal gains x0 prevCost pred a0 = true :=
          List.find?_some hfind
        unfold lineSearch at h
        rw [hfind] at h
        unfold acceptTest at hp0
        split at hp0
        · next cst0 hcc =>
            unfold candidateCost at hcc
            split at hcc
            · next res hroll =>
                have h2 : (match rolloutCandidate m c nominal gains x0 a0 with
                    | Except.ok res => some (a0, res.1, res.2)
                    | Except.error _ => (none : Option (ℚ × Trajectory × ℚ))) =
                    none := h
                rw [hroll] at h2
                exact Option.noConfusion h2
            · cases hcc
        · cases hp0
  · intro h
    unfold lineSearch
    rw [List.find?_eq_none.mpr]
    intro a ha hb
    rw [h a ha] at hb
    cases hb

/-- C4: for every candidate list satisfying the settings invariant, the line
search accepts exactly the first candidate, in the given decreasing order,
whose total rollout cost does not exceed the previous iteration's cost minus
the Armijo fraction of the predicted decrease at that step size; everything
scanned before it fails the test, and if every candidate fails the test the
line search reports failure (none), which the controller records as a failed
line search. -/
theorem lineSearch_first_satisfying_armijo (m : SystemModel) (c : CostModel)
    (nominal : Trajectory) (gains : List (ℚ × ℚ)) (x0 : ℚ) (s : SolveSettings)
    (prevCost pred : ℚ) (hs : settingsOk s = true) :
    (∀ a tr cst,
      lineSearch m c nominal gains x0 s.lineSearchSteps prevCost pred =
          some (a, tr, cst) →
        candidateCost m c nominal gains x0 a = some cst ∧
        cst ≤ prevCost - armijoFraction * (a * pred) ∧
        ∃ pre post, s.lineSearchSteps = pre ++ a :: post ∧
          ∀ b ∈ pre,
            acceptTest m c nominal gains x0 prevCost pred b = false) ∧
    (lineSearch m c nominal gains x0 s.lineSearchSteps prevCost pred = none ↔
      ∀ a ∈ s.lineSearchSteps,
        acceptTest m c nominal gains x0 prevCost pred a = false) := by
  constructor
  · intro a tr cst h
    obtain ⟨hfind, hcc⟩ :=
      lineSearch_some_elim m c nominal gains x0 s.lineSearchSteps prevCost
        pred a cst tr h
    have hp : acceptTest m c nominal gains x0 prevCost pred a = true :=
      List.find?_some hfind
    have harm : cst ≤ prevCost - armijoFraction * (a * pred) := by
      unfold acceptTest at hp
      rw [hcc] at hp
      exact of_decide_eq_true hp
    obtain ⟨_, pre, post, heq, hpre⟩ := find?_first_satisfying hfind
    exact ⟨hcc, harm, pre, post, heq, hpre⟩
  · exact lineSearch_none_iff m c nominal gains x0 s.lineSearchSteps
      prevCost pred

/-- Witness for C4: on the demo problem with an unreachable previous cost,
every candidate fails the sufficient-decrease test and the line search
reports failure. -/
theorem lineSearch_first_satisfying_armijo_witness :
    lineSearch demoModel demoCost demoTraj demoGains 1
      demoSettings.lineSearchSteps (-100) 0 = none :=
  (lineSearch_first_satisfying_armijo demoModel demoCost demoTraj demoGains 1
    demoSettings (-100) 0 (by decide)).2.mpr (by decide)

/-- A successful rollout recursion produces one more state than gain pair and
exactly one control per gain pair. -/
theorem rolloutAux_lengths (m : SystemModel) (c : CostModel) (a : ℚ)
    (xnom unom : List ℚ) :
    ∀ (gains : List (ℚ × ℚ)) (x : ℚ) (t : Nat) res,
      rolloutAux m c a xnom unom x t gains = Except.ok res →
        res.1.length = gains.length + 1 ∧ res.2.1.length = gains.length := by
  intro gains
  induction gains with
  | nil =>
      intro x t res h
      injection h with h2
      rw [← h2]
      exact ⟨rfl, rfl⟩
  | cons g rest ih =>
      intro x t res h
      unfold rolloutAux at h
      dsimp only at h
      split at h
      · cases h
      · next xNext hprop =>
          split at h
          · cases h
          · next acc hrec =>
              injection h with h2
              obtain ⟨h1, h3⟩ := ih xNext (t + 1) acc hrec
              rw [← h2]
              simp only [List.length_cons]
              omega

/-- The zero-control forward propagation produces one state per remaining
step plus the current state. -/
theorem zeroStates_length (m : SystemModel) :
    ∀ (k : Nat) (x : ℚ) (t : Nat), (zeroStates m x t k).length = k + 1 := by
  intro k
  induction k with
  | zero => intro x t; rfl
  | succ k ih =>
      intro x t
      show (x :: zeroStates m (m.step x 0 t) (t + 1) k).length = k + 1 + 1
      rw [List.length_cons, ih]

/-- Padding a list no longer than the target length yields exactly the target
length. -/
theorem extendTo_length (len : Nat) (d : A) (l : List A)
    (h : l.length ≤ len) : (extendTo len d l).length = len := by
  unfold extendTo
  rw [List.length_append, List.length_replicate]
  omega

/-- C6: every Trajectory reachable through the solver's operations satisfies
the data-model invariant states.length = controls.length + 1 — the initial
guess construction establishes it, every trajectory produced by a successful
Forward Simulator rollout satisfies it, and the MPC wrapper's
receding-horizon shift preserves it. -/
theorem trajectory_invariant_reachable (m : SystemModel) (c : CostModel)
    (x0 a : ℚ) (horizon : Nat) (guess : Option Trajectory)
    (nominal : Trajectory) (gains : List (ℚ × ℚ)) (k : Nat) (t : Trajectory)
    (ht : t.wellFormed) :
    (initialGuess m x0 horizon guess).wellFormed ∧
    rolloutWF m c nominal gains x0 a = true ∧
    (shiftTrajectory k t).wellFormed := by
  refine ⟨?_, ?_, ?_⟩
  · unfold initialGuess
    cases guess with
    | none =>
        show (zeroControlGuess m x0 horizon).wellFormed
        unfold zeroControlGuess Trajectory.wellFormed
        rw [zeroStates_length, List.length_replicate]
    | some g =>
        show (if g.states.length = g.controls.length + 1 ∧
            g.controls.length = horizon then g
          else zeroControlGuess m x0 horizon).wellFormed
        split
        · next hcond => exact hcond.1
        · show (zeroControlGuess m x0 horizon).wellFormed
          unfold zeroControlGuess Trajectory.wellFormed
          rw [zeroStates_length, List.length_replicate]
  · unfold rolloutWF
    split
    · next res hroll =>
        unfold rolloutCandidate at hroll
        split at hroll
        · cases hroll
        · next acc hrec =>
            injection hroll with h2
            obtain ⟨h1, h3⟩ := rolloutAux_lengths m c a nominal.states
              nominal.controls gains x0 0 acc hrec
            rw [decide_eq_true_eq, ← h2]
            unfold Trajectory.wellFormed
            rw [h1, h3]
    · rfl
  · unfold shiftTrajectory Trajectory.wellFormed
    rw [extendTo_length, extendTo_length]
    · exact ht
    · rw [List.length_drop]
      omega
    · rw [List.length_drop]
      omega

/-- Witness for C6: the three operations evaluated on the concrete demo
trajectory. -/
theorem trajectory_invariant_reachable_witness :
    (initialGuess demoModel 1 2 none).wellFormed ∧
    rolloutWF demoModel demoCost demoTraj demoGains 1 1 = true ∧
    (shiftTrajectory 1 demoTraj).wellFormed :=
  trajectory_invariant_reachable demoModel demoCost 1 1 2 none demoTraj
    demoGains 1 demoTraj (by decide)

/-- A successful damping search yields positive damped curvature. -/
theorem findReg_pos (quu cap : ℚ) :
    ∀ (fuel : Nat) (reg r : ℚ), findReg quu cap reg fuel = some r →
      0 < quu + r := by
  intro fuel
  induction fuel with
  | zero => intro reg r h; cases h
  | succ fuel ih =>
      intro reg r h
      unfold findReg at h
      split at h
      · cases h
      · split at h
        · next hpos =>
            injection h with h2
            rw [← h2]
            exact hpos
        · exact ih (2 * reg) r h

/-- The damping selected for one Riccati step makes the damped
control-control curvature positive. -/
theorem dampQuu_pos (quu reg0 cap : ℚ) (r : ℚ) (w : Bool)
    (h : dampQuu quu reg0 cap = some (r, w)) : 0 < quu + r := by
  unfold dampQuu at h
  split at h
  · next hpos =>
      injection h with h2
      rw [Prod.mk.injEq] at h2
      rw [← h2.1, add_zero]
      exact hpos
  · split at h
    · next r0 hfind =>
        injection h with h2
        rw [Prod.mk.injEq] at h2
        rw [← h2.1]
        exact findReg_pos quu cap regFuel reg0 r0 hfind
    · cases h

/-- One Riccati step never decreases the accumulated predicted decrease. -/
theorem riccatiStep_pred_mono (reg0 cap : ℚ) (st : LinStep) (acc acc2 : RicAcc)
    (h : riccatiStep reg0 cap st acc = some acc2) : acc.pred ≤ acc2.pred := by
  unfold riccatiStep at h
  dsimp only at h
  split at h
  · cases h
  · next rw2 hdamp =>
      injection h with h2
      have hpos : 0 < st.luu + st.B * acc.s2 * st.B + rw2.1 :=
        dampQuu_pos _ _ _ rw2.1 rw2.2 (by rw [← hdamp])
      have hq : 0 ≤ (st.lu + st.B * acc.s1) * (st.lu + st.B * acc.s1) /
          (st.luu + st.B * acc.s2 * st.B + rw2.1) :=
        div_nonneg (mul_self_nonneg _) (le_of_lt hpos)
      rw [← h2]
      simp only
      linarith

/-- The backward recursion never decreases the predicted decrease. -/
theorem backwardRec_pred_mono (reg0 cap : ℚ) :
    ∀ (steps : List LinStep) (acc out : RicAcc),
      backwardRec reg0 cap acc steps = some out → acc.pred ≤ out.pred := by
  intro steps
  induction steps with
  | nil =>
      intro acc out h
      injection h with h2
      rw [h2]
  | cons st rest ih =>
      intro acc out h
      unfold backwardRec at h
      split at h
      · cases h
      · next a hstep =>
          exact le_trans (riccatiStep_pred_mono reg0 cap st acc a hstep)
            (ih a out h)

/-- The Backward Solver reports a nonnegative predicted cost decrease. -/
theorem backwardSolve_pred_nonneg (reg0 cap : ℚ) (c : CostModel) (xN : ℚ)
    (steps : List LinStep) (out : RicAcc)
    (h : backwardSolve reg0 cap c xN steps = some out) : 0 ≤ out.pred := by
  unfold backwardSolve at h
  exact backwardRec_pred_mono reg0 cap steps.reverse _ out h

/-- The settings invariant forces every line-search candidate to be
positive. -/
theorem settingsOk_steps_pos (s : SolveSettings) (hs : settingsOk s = true) :
    ∀ a ∈ s.lineSearchSteps, (0 : ℚ) < a := by
  intro a ha
  unfold settingsOk at hs
  rw [Bool.and_eq_true, Bool.and_eq_true] at hs
  have hall := hs.2
  rw [List.all_eq_true] at hall
  have hone := hall a ha
  rw [Bool.and_eq_true] at hone
  exact of_decide_eq_true hone.1

/-- An accepted line-search candidate never costs more than the previous
iteration, provided the predicted decrease is nonnegative and every
candidate step size is positive. -/
theorem lineSearch_accept_le (m : SystemModel) (c : CostModel)
    (nominal : Trajectory) (gains : List (ℚ × ℚ)) (x0 : ℚ) (cands : List ℚ)
    (prevCost pred : ℚ) (hpred : 0 ≤ pred)
    (hpos : ∀ a ∈ cands, (0 : ℚ) < a) (out : ℚ × Trajectory × ℚ)
    (h : lineSearch m c nominal gains x0 cands prevCost pred = some out) :
    out.2.2 ≤ prevCost := by
  obtain ⟨hfind, hcc⟩ :=
    lineSearch_some_elim m c nominal gains x0 cands prevCost pred out.1
      out.2.2 out.2.1 h
  have hmem := List.mem_of_find?_eq_some hfind
  have hp : acceptTest m c nominal gains x0 prevCost pred out.1 = true :=
    List.find?_some hfind
  unfold acceptTest at hp
  rw [hcc] at hp
  have harm := of_decide_eq_true hp
  have h1 : 0 < out.1 := hpos _ hmem
  have h2 : 0 ≤ armijoFraction := by decide
  have h3 : 0 ≤ armijoFraction * (out.1 * pred) :=
    mul_nonneg h2 (mul_nonneg (le_of_lt h1) hpred)
  linarith

/-- Invariant of the outer iteration loop: if the accepted-cost history
starts at the current cost and is ordered most-recent-first with each entry
at most its predecessor, then the final trace keeps its head equal to the
returned final cost and stays so ordered. -/
theorem solveLoop_props (m : SystemModel) (c : CostModel) (s : SolveSettings)
    (x0 : ℚ) (hpos : ∀ a ∈ s.lineSearchSteps, (0 : ℚ) < a) :
    ∀ (fuel : Nat) (st : IterState),
      st.history.head? = some st.cost →
      st.history.Chain' (fun a b => a ≤ b) →
      ((solveLoop m c s x0 fuel st).2.head? =
          some (solveLoop m c s x0 fuel st).1.finalCost ∧
        (solveLoop m c s x0 fuel st).2.Chain' (fun a b => a ≤ b)) := by
  intro fuel
  induction fuel with
  | zero => intro st hh hc; exact ⟨hh, hc⟩
  | succ fuel ih =>
      intro st hh hc
      unfold solveLoop
      split
      · exact ⟨hh, hc⟩
      · next steps hlq =>
          split
          · exact ⟨hh, hc⟩
          · next bw hbw =>
              split
              · split
                · exact ⟨hh, hc⟩
                · exact ih ⟨st.traj, st.policy, st.cost, 2 * st.reg,
                    st.lsFails + 1, st.iters + 1, st.history⟩ hh hc
              · next acc hls =>
                  have hpred : 0 ≤ bw.pred :=
                    backwardSolve_pred_nonneg st.reg s.regularizationMaxGrowth
                      c (st.traj.states.getLastD 0) steps bw hbw
                  have hle : acc.2.2 ≤ st.cost :=
                    lineSearch_accept_le m c st.traj bw.gains x0
                      s.lineSearchSteps st.cost bw.pred hpred hpos acc hls
                  have hchain :
                      (acc.2.2 :: st.history).Chain' (fun a b => a ≤ b) := by
                    rw [List.chain'_cons']
                    refine ⟨?_, hc⟩
                    intro b hb
                    rw [hh] at hb
                    injection hb with hb2
                    rw [← hb2]
                    exact hle
                  split
                  · exact ⟨rfl, hchain⟩
                  · exact ih ⟨acc.2.1, bw.gains, acc.2.2,
                      s.regularizationInit, 0, st.iters + 1,
                      acc.2.2 :: st.history⟩ rfl hchain

/-- C1: across the outer iterations of one solve call the accepted total
costs are non-increasing — in the accepted-cost trace (most recent first,
seeded with the initial guess cost) every accepted cost is at most the
previous iteration's accepted cost. -/
theorem accepted_cost_monotone (m : SystemModel) (c : CostModel) (x0 : ℚ)
    (guess : Option Trajectory) (horizon : Nat) (s : SolveSettings)
    (hs : settingsOk s = true) :
    (solveTrace m c x0 guess horizon s).Chain' (fun a b => a ≤ b) := by
  unfold solveTrace solveWithTrace
  split
  · next res heq =>
      split at heq
      · injection heq with h2
        rw [← h2]
        exact (solveLoop_props m c s x0 (settingsOk_steps_pos s hs)
          s.maxIterations
          ⟨initialGuess m x0 horizon guess, [],
            trajectoryCost c (initialGuess m x0 horizon guess),
            s.regularizationInit, 0, 0,
            [trajectoryCost c (initialGuess m x0 horizon guess)]⟩
          rfl (List.chain'_singleton _)).2
      · cases heq
  · exact List.chain'_nil

/-- Witness for C1: the accepted-cost trace of the demo solve is ordered. -/
theorem accepted_cost_monotone_witness :
    (solveTrace demoModel demoCost 1 none 1 demoSettings).Chain'
      (fun a b => a ≤ b) :=
  accepted_cost_monotone demoModel demoCost 1 none 1 demoSettings (by decide)

/-- In a list ordered most-recent-first by the at-most relation, the head is
a lower bound for every element. -/
theorem head_all_le_of_chain (l : List ℚ) (q : ℚ) (h0 : l.head? = some q)
    (hc : l.Chain' (fun a b => a ≤ b)) : ∀ cst ∈ l, q ≤ cst := by
  cases l with
  | nil => intro cst hmem; cases hmem
  | cons x t =>
      injection h0 with h0b
      subst h0b
      rw [List.chain'_iff_pairwise] at hc
      intro cst hmem
      cases hmem with
      | head => exact le_refl _
      | tail _ hm => exact (List.pairwise_cons.mp hc).1 cst hm

/-- C5: with well-formed settings and a positive horizon, solve returns a
SolveResult (no exception path for numerical difficulty: curvature-cap
overflow and line-search exhaustion surface as the diverged status, not an
error); a result terminated by the iteration budget carries converged =
false; and the returned final cost is the best (least) cost in the
accepted-cost trace. -/
theorem solve_no_throw_status (m : SystemModel) (c : CostModel) (x0 : ℚ)
    (guess : Option Trajectory) (horizon : Nat) (s : SolveSettings)
    (hs : settingsOk s = true) (hh : 0 < horizon) :
    isOkE (solve m c x0 guess horizon s) = true ∧
    (∀ r, solve m c x0 guess horizon s = Except.ok r →
      r.status = TermStatus.budget → r.convergedFlag = false) ∧
    (∀ r trace, solveWithTrace m c x0 guess horizon s =
        Except.ok (r, trace) → ∀ cst ∈ trace, r.finalCost ≤ cst) := by
  have hcond : (settingsOk s && decide (0 < horizon)) = true := by
    rw [hs, decide_eq_true hh]
    rfl
  refine ⟨?_, ?_, ?_⟩
  · unfold solve solveWithTrace
    rw [if_pos hcond]
    rfl
  · intro r hr hb
    unfold SolveResult.convergedFlag
    rw [hb]
    rfl
  · intro r trace h
    unfold solveWithTrace at h
    rw [if_pos hcond] at h
    injection h with h2
    have hprops := solveLoop_props m c s x0 (settingsOk_steps_pos s hs)
      s.maxIterations
      ⟨initialGuess m x0 horizon guess, [],
        trajectoryCost c (initialGuess m x0 horizon guess),
        s.regularizationInit, 0, 0,
        [trajectoryCost c (initialGuess m x0 horizon guess)]⟩
      rfl (List.chain'_singleton _)
    rw [h2] at hprops
    exact head_all_le_of_chain trace r.finalCost hprops.1 hprops.2

/-- Witness for C5: the demo solve returns a result. -/
theorem solve_no_throw_status_witness :
    isOkE (solve demoModel demoCost 1 none 1 demoSettings) = true :=
  (solve_no_throw_status demoModel demoCost 1 none 1 demoSettings (by decide)
    (by decide)).1
